import Mathlib

/-!
# Verification of the Fraud_Detection plotting utilities (`Code/utility.py`)

A shallow embedding, in Lean 4, of the data transformations performed by the
three functions of `Code/utility.py`:

* `piechart` (the spec's *CategoryConcentration*),
* `barchart_continuous` (the spec's *ContinuousSplitDistribution*),
* `barchart_categorical` (the spec's *CategoricalSplitSummary*).

The source is pandas / numpy code.  The embedding models:

* a dataframe as a `List` of rows; each function only reads two or three
  columns, so each function gets its own row structure holding exactly the
  columns it touches;
* a possibly-missing cell (`NaN`) as an `Option`; numeric cells are `ℚ`
  (the Python floats/ints, taken as exact numbers);
* `pandas.pivot_table(index=field, values=id, aggfunc=np.count_nonzero)`:
  rows whose group key is `NaN` are dropped by the underlying `groupby`;
  the aggregated value column is *not* NaN-filtered before aggregation, and
  `np.count_nonzero` counts the *truthy* entries of the group
  (`bool(NaN) = True`, `bool(0) = False`);
* `Series.sum()` as a NaN-skipping sum; `Series.min()/max()` as NaN-skipping
  extrema returning `NaN` (here `none`) on an empty/all-NaN column;
* numpy scalar division, which yields `NaN` (here `none`) on `0/0` rather
  than raising;
* `np.linspace(a, b, n)`, which raises for `n < 0` and otherwise returns the
  `n` points `a + i·(b-a)/(n-1)`;
* `pd.cut(xs, bins)` with its default options: half-open `(left, right]`
  intervals, a value equal to the left-most edge is left unassigned
  (`include_lowest=False`), values are placed by a left-sided binary search
  over the edges, and the call raises when the edge array strictly decreases
  somewhere, when it contains duplicate edges while having length ≠ 2
  (`duplicates="raise"`), or when an interval with `¬(left ≤ right)` would
  be built from the breaks;
* `groupby` over a categorical column, which keeps every category (also the
  unobserved ones, `observed=False`) in category order;
* Python's list/`iloc` slicing `pvt[:cats]`, including negative `cats`.

Group keys are listed in first-occurrence order here; pandas sorts them.
Every claim proved below is invariant under that order (the pie pipeline
re-sorts by count anyway, and all other statements are per-group), so the
choice is immaterial.  Chart rendering is a side effect on matplotlib's
global state and is not part of the data model.
-/

/-- Truthiness of a possibly-missing numeric cell, as `np.count_nonzero`
sees it: `NaN` is truthy (`bool(nan) = True`), `0` is falsy, every other
number is truthy. -/
def truthy : Option ℚ → Bool
  | none => true
  | some q => q ≠ 0

/-- A dataframe row as read by `piechart`: the categorical column `field`
(a possibly-missing string) and the `unique_identifier` column (a
possibly-missing number). -/
structure PieRow where
  cat : Option String
  idv : Option ℚ
deriving DecidableEq, Repr

/-- The distinct non-missing values of the `field` column: the group keys of
`pivot_table(index=field, ...)` (rows with a `NaN` key are dropped by the
underlying `groupby`). -/
def distinctCats (df : List PieRow) : List String :=
  (df.filterMap PieRow.cat).dedup

/-- The aggregated value `np.count_nonzero` produces for the group of
category `c`: the number of rows of the group whose identifier cell is
truthy. -/
def countFor (df : List PieRow) (c : String) : ℕ :=
  df.countP (fun r => r.cat == some c && truthy r.idv)

/-- The pivot table of `piechart` after
`.sort_values(by=unique_identifier, ascending=False)`: one `(category,
count)` pair per distinct category, sorted by count descending. -/
def pvt (df : List PieRow) : List (String × ℕ) :=
  ((distinctCats df).map (fun c => (c, countFor df c))).insertionSort
    (fun p q => q.2 ≤ p.2)

/-- `pvt.Count.sum()`: the grand total of the counts. -/
def grandTotal (df : List PieRow) : ℕ :=
  ((pvt df).map Prod.snd).sum

/-- One division `x.Count / pvt.Count.sum()` as numpy evaluates it.  Since
every count is at most the total, a zero total forces a zero numerator, and
`0/0` is `NaN` (`none`); otherwise the quotient is exact. -/
def mkConc (cnt total : ℕ) : Option ℚ :=
  if total = 0 then none else some ((cnt : ℚ) / (total : ℚ))

/-- A row of the summary table built by `piechart`: category label, the
`Count` column (an integer: the `Others` count is computed by a
subtraction) and the `Concentration` column (a float, `none` = `NaN`). -/
structure SRow where
  label : String
  count : ℤ
  conc : Option ℚ
deriving DecidableEq, Repr

/-- The pivot table with its `Concentration` column
(`pvt.apply(lambda x: x.Count / pvt.Count.sum(), axis=1)`). -/
def pvtConc (df : List PieRow) : List SRow :=
  (pvt df).map (fun p => ⟨p.1, (p.2 : ℤ), mkConc p.2 (grandTotal df)⟩)

/-- Python's slice `l[:k]` for an `int` `k`: a nonnegative `k` keeps the
first `k` elements, a negative `k` drops the last `|k|`. -/
def pySlice (k : ℤ) (l : List α) : List α :=
  if k < 0 then l.take (l.length - k.natAbs) else l.take k.toNat

/-- `top_n_cats = pvt[:cats]`. -/
def topCats (df : List PieRow) (cats : ℤ) : List SRow :=
  pySlice cats (pvtConc df)

/-- `Series.sum()` over a float column: the NaN-skipping sum pandas
computes (`skipna=True` is the default). -/
def skipnaSum (l : List (Option ℚ)) : ℚ :=
  l.foldr (fun o s => match o with | none => s | some q => q + s) 0

/-- The synthetic row `['Others', pvt.Count.sum() - top_n_cats.Count.sum(),
1.0 - top_n_cats.Concentration.sum()]`. -/
def othersRow (df : List PieRow) (cats : ℤ) : SRow :=
  ⟨"Others",
   (grandTotal df : ℤ) - ((topCats df cats).map SRow.count).sum,
   some (1 - skipnaSum ((topCats df cats).map SRow.conc))⟩

/-- The summary table `piechart` returns: the retained top rows with the
`Others` row appended (`DataFrame.append` keeps it last). -/
def piechart (df : List PieRow) (cats : ℤ) : List SRow :=
  topCats df cats ++ [othersRow df cats]

/-- Adding up a float column with `NaN` poisoning the result (IEEE
addition): the mathematical sum of the column's values, which exists only
when every cell is an actual number. -/
def strictSum (l : List (Option ℚ)) : Option ℚ :=
  l.foldr (fun o s => do pure ((← o) + (← s))) (some 0)

/-- A dataframe row as read by `barchart_continuous`: the continuous column
`field` and the column `binary_var`, both possibly missing. -/
structure ContRow where
  x : Option ℚ
  b : Option ℚ
deriving DecidableEq, Repr

/-- `dataset_true = dataframe.loc[dataframe[binary_var] == 1]`: the rows
whose binary cell compares equal to `1` (a `NaN` or any other value
compares unequal). -/
def datasetTrue (df : List ContRow) : List ContRow :=
  df.filter (fun r => r.b == some 1)

/-- `dataset_false = dataframe.loc[dataframe[binary_var] == 0]`. -/
def datasetFalse (df : List ContRow) : List ContRow :=
  df.filter (fun r => r.b == some 0)

/-- `Series.min()`: NaN-skipping minimum, `NaN` (`none`) when the column
has no actual values. -/
def seriesMin (df : List ContRow) : Option ℚ :=
  (df.filterMap ContRow.x).min?

/-- `Series.max()`. -/
def seriesMax (df : List ContRow) : Option ℚ :=
  (df.filterMap ContRow.x).max?

/-- `min = dataframe[field].min() if min is None else min`. -/
def defMin (df : List ContRow) (minp : Option ℚ) : Option ℚ :=
  match minp with
  | some m => some m
  | none => seriesMin df

/-- `max = dataframe[field].max() if max is None else max`. -/
def defMax (df : List ContRow) (maxp : Option ℚ) : Option ℚ :=
  match maxp with
  | some m => some m
  | none => seriesMax df

/-- The `n` points of `np.linspace(a, b, n)` (for a nonnegative `n`):
`a + i·(b-a)/(n-1)`.  For `n = 1` numpy returns `[a]` and for `n = 0` the
empty array, which the formula also yields (`i = 0` kills the `0/0`
factor); for `n ≥ 2` the last point is exactly `b`, as numpy's explicit
endpoint assignment makes it. -/
def npLinspace (n : ℕ) (a b : ℚ) : List ℚ :=
  (List.range n).map (fun i : ℕ => a + (i : ℚ) * (b - a) / ((n : ℚ) - 1))

/-- `custom_bucket_array = np.linspace(min, max, n)` as a list of float
cells: when either defaulted endpoint is `NaN` every produced edge is
`NaN` (numpy arithmetic propagates it). -/
def mkBins (n : ℕ) : Option ℚ → Option ℚ → List (Option ℚ)
  | some a, some b => (npLinspace n a b).map some
  | _, _ => List.replicate n none

/-- The adjacent pairs of a list (the pairs `np.diff` subtracts). -/
def pairsOf : List α → List (α × α)
  | a :: b :: t => (a, b) :: pairsOf (b :: t)
  | _ => []

/-- IEEE `p < q` on float cells: false whenever either side is `NaN`. -/
def fltLt : Option ℚ → Option ℚ → Bool
  | some p, some q => p < q
  | _, _ => false

/-- IEEE `p ≤ q` on float cells. -/
def fltLe : Option ℚ → Option ℚ → Bool
  | some p, some q => p ≤ q
  | _, _ => false

/-- `(np.diff(bins) < 0).any()`, the check behind pandas'
"bins must increase monotonically" error: some adjacent pair strictly
decreases (`NaN` compares false, so `NaN` edges never trigger it). -/
def binsDecreasing (bins : List (Option ℚ)) : Bool :=
  (pairsOf bins).any (fun p => fltLt p.2 p.1)

/-- Pandas' duplicate-edge check in `_bins_to_cuts`
(`len(algos.unique(bins)) < len(bins) and len(bins) != 2`, with
`duplicates="raise"`); `pd.unique` keeps first occurrences and collapses
all `NaN`s into one. -/
def binsDuplicated (bins : List (Option ℚ)) : Bool :=
  bins.dedup.length < bins.length && bins.length != 2

/-- The interval-construction check of `IntervalIndex.from_breaks`: each
consecutive pair of breaks must satisfy `left ≤ right` (under IEEE
comparison, so a `NaN` break fails it). -/
def binsBadInterval (bins : List (Option ℚ)) : Bool :=
  (pairsOf bins).any (fun p => !fltLe p.1 p.2)

/-- `bins.searchsorted(v, side="left")` on the edge array: the number of
edges strictly below `v` (a `NaN` edge compares false, hence counts as not
below). -/
def searchSorted (bins : List (Option ℚ)) (v : ℚ) : ℕ :=
  bins.countP (fun e => fltLt e (some v))

/-- The bucket `pd.cut` assigns to the value `v`: interval `j` covers
`(bins[j], bins[j+1]]`; `v` is unassigned (`NaN`, here `none`) when the
left search position is `0` (`v` at or below the first edge, since
`include_lowest=False`) or `len(bins)` (`v` above the last edge). -/
def assignBucket (bins : List (Option ℚ)) (v : ℚ) : Option ℕ :=
  let ids := searchSorted bins v
  if ids = 0 ∨ ids = bins.length then none else some (ids - 1)

/-- The cut cell of one row: a missing value stays missing (`isna(x)` is
part of `pd.cut`'s NaN mask). -/
def cutCell (bins : List (Option ℚ)) : Option ℚ → Option ℕ
  | none => none
  | some v => assignBucket bins v

/-- `sub.groupby(field).size()` after the cut: the group sizes over *all*
`len(bins) - 1` interval categories, in category order (`groupby` on a
categorical column keeps unobserved categories, `observed=False`). -/
def groupSizes (bins : List (Option ℚ)) (sub : List ContRow) : List ℕ :=
  (List.range (bins.length - 1)).map
    (fun j => sub.countP (fun r => cutCell bins r.x == some j))

/-- `sub[field].count()` after the cut: the number of rows that landed in
some bucket (`count` ignores `NaN`). -/
def bucketedCount (bins : List (Option ℚ)) (sub : List ContRow) : ℕ :=
  sub.countP (fun r => (cutCell bins r.x).isSome)

/-- `sub.groupby(field).size() / sub[field].count()`: element-wise float
division of the sizes by the bucketed count (`0/0` is `NaN`). -/
def groupFracs (bins : List (Option ℚ)) (sub : List ContRow) :
    List (Option ℚ) :=
  (groupSizes bins sub).map
    (fun s : ℕ => if bucketedCount bins sub = 0 then none
                  else some ((s : ℚ) / (bucketedCount bins sub : ℚ)))

/-- The data `barchart_continuous` hands to the chart: the bin edges and,
per binary class, the group sizes, the bucketed-row count and the plotted
fractions. -/
structure ContOut where
  bins : List (Option ℚ)
  sizesTrue : List ℕ
  cntTrue : ℕ
  fracTrue : List (Option ℚ)
  sizesFalse : List ℕ
  cntFalse : ℕ
  fracFalse : List (Option ℚ)
deriving DecidableEq, Repr

/-- The chart data assembled from the cut columns of the two subsets. -/
def mkOut (df : List ContRow) (bins : List (Option ℚ)) : ContOut :=
  ⟨bins,
   groupSizes bins (datasetTrue df),
   bucketedCount bins (datasetTrue df),
   groupFracs bins (datasetTrue df),
   groupSizes bins (datasetFalse df),
   bucketedCount bins (datasetFalse df),
   groupFracs bins (datasetFalse df)⟩

/-- `barchart_continuous`, up to the values handed to matplotlib.  The
`Except` layer carries the exceptions the underlying libraries raise, in
evaluation order: `np.linspace` rejects a negative `n`; `pd.cut` rejects
edge arrays that decrease somewhere, then duplicated edges (unless exactly
two edges), then breaks that do not build valid intervals. -/
def barchart_continuous (df : List ContRow) (n : ℤ)
    (minp maxp : Option ℚ) : Except String ContOut :=
  if n < 0 then .error "linspace: number of samples must be non-negative"
  else
    let bins := mkBins n.toNat (defMin df minp) (defMax df maxp)
    if binsDecreasing bins then .error "bins must increase monotonically"
    else if binsDuplicated bins then .error "bin edges must be unique"
    else if binsBadInterval bins then
      .error "left side of interval must be <= right side"
    else .ok (mkOut df bins)

/-- Whether a library call raised. -/
def isErr : Except String α → Bool
  | .error _ => true
  | .ok _ => false

/-- A dataframe row as read by `barchart_categorical`: the categorical
column `field` and the column `binary_variable`. -/
structure CatRow where
  cat : Option String
  b : Option ℚ
deriving DecidableEq, Repr

/-- The group keys of `dataframe.groupby([field])` (rows with a `NaN` key
are dropped). -/
def distinctCatsC (df : List CatRow) : List String :=
  (df.filterMap CatRow.cat).dedup

/-- The `count` aggregate of
`groupby([field])[binary_variable].agg([...])`: the number of non-missing
binary cells in the group. -/
def aggCount (df : List CatRow) (c : String) : ℕ :=
  df.countP (fun r => r.cat == some c && r.b.isSome)

/-- The `sum` aggregate: the NaN-skipping sum of the group's binary cells
(an all-missing group sums to `0.0`, pandas' `min_count=0`). -/
def aggSum (df : List CatRow) (c : String) : ℚ :=
  skipnaSum ((df.filter (fun r => r.cat == some c)).map CatRow.b)

/-- The `mean` aggregate: the NaN-skipping mean, `NaN` on a group with no
actual values. -/
def aggMean (df : List CatRow) (c : String) : Option ℚ :=
  if aggCount df c = 0 then none else some (aggSum df c / (aggCount df c : ℚ))

/-- A row of the `categories` table of `barchart_categorical`. -/
structure AggRow where
  label : String
  count : ℕ
  sum : ℚ
  mean : Option ℚ
deriving DecidableEq, Repr

/-- The table
`dataframe.groupby([field])[binary_variable].agg(['count','sum','mean'])`
that `barchart_categorical` plots (one row per distinct category). -/
def barchart_categorical (df : List CatRow) : List AggRow :=
  (distinctCatsC df).map (fun c => ⟨c, aggCount df c, aggSum df c, aggMean df c⟩)

/-! ## Helper lemmas -/

theorem pySlice_sublist (k : ℤ) (l : List α) : (pySlice k l).Sublist l := by
  unfold pySlice
  split <;> exact List.take_sublist _ _

theorem skipnaSum_cons (o : Option ℚ) (l : List (Option ℚ)) :
    skipnaSum (o :: l) = (match o with | none => 0 | some q => q) + skipnaSum l := by
  cases o <;> simp [skipnaSum]

theorem skipnaSum_map_some (l : List ℚ) : skipnaSum (l.map some) = l.sum := by
  induction l with
  | nil => rfl
  | cons a t ih => simp [skipnaSum_cons, ih]

theorem skipnaSum_append (l₁ l₂ : List (Option ℚ)) :
    skipnaSum (l₁ ++ l₂) = skipnaSum l₁ + skipnaSum l₂ := by
  induction l₁ with
  | nil => simp [skipnaSum]
  | cons a t ih => cases a <;> simp [skipnaSum_cons, ih, add_assoc]

theorem strictSum_eq_skipnaSum (l : List (Option ℚ)) (h : ∀ o ∈ l, o.isSome) :
    strictSum l = some (skipnaSum l) := by
  induction l with
  | nil => rfl
  | cons a t ih =>
    obtain ⟨q, rfl⟩ := Option.isSome_iff_exists.mp (h a (.head _))
    have ht := ih (fun o ho => h o (.tail _ ho))
    have hc : strictSum (some q :: t)
        = (some q >>= fun x => strictSum t >>= fun y => pure (x + y)) := rfl
    rw [hc, ht, skipnaSum_cons]
    rfl

theorem sum_map_div (l : List ℚ) (c : ℚ) :
    (l.map (fun q => q / c)).sum = l.sum / c := by
  induction l with
  | nil => simp
  | cons a t ih => simp [ih, add_div]

instance relTotal : IsTotal (String × ℕ) (fun p q => q.2 ≤ p.2) :=
  ⟨fun a b => (le_total b.2 a.2)⟩

instance relTrans : IsTrans (String × ℕ) (fun p q => q.2 ≤ p.2) :=
  ⟨fun _ _ _ hab hbc => le_trans hbc hab⟩

theorem pvt_sorted (df : List PieRow) :
    (pvt df).Sorted (fun p q => q.2 ≤ p.2) :=
  List.sorted_insertionSort _ _

theorem pvtConc_sorted (df : List PieRow) :
    (pvtConc df).Sorted (fun a b => b.count ≤ a.count) := by
  refine List.Pairwise.map _ (fun a b h => ?_) (pvt_sorted df)
  exact Nat.cast_le.mpr h

theorem mem_pvt (df : List PieRow) (p : String × ℕ) :
    p ∈ pvt df ↔ p ∈ (distinctCats df).map (fun c => (c, countFor df c)) :=
  List.mem_insertionSort _

/-! ## Claims about `piechart` (CategoryConcentration) -/

/-- C7: `dataset_true` holds exactly the rows whose binary cell is `1`,
`dataset_false` exactly those whose binary cell is `0`; a row with any
other binary cell (e.g. `2`, or missing) lands in neither subset. -/
theorem c7_binary_partition (df : List ContRow) (r : ContRow) :
    (r ∈ datasetTrue df ↔ r ∈ df ∧ r.b = some 1) ∧
    (r ∈ datasetFalse df ↔ r ∈ df ∧ r.b = some 0) ∧
    (r.b ≠ some 1 → r ∉ datasetTrue df) ∧
    (r.b ≠ some 0 → r ∉ datasetFalse df) := by
  refine ⟨?_, ?_, ?_, ?_⟩ <;>
    simp [datasetTrue, datasetFalse, List.mem_filter] <;> tauto

theorem c7_binary_partition_witness :
    ((⟨some 7, some 2⟩ : ContRow) ∉
      datasetTrue [⟨some 7, some 2⟩, ⟨some 1, some 1⟩]) ∧
    ((⟨some 7, some 2⟩ : ContRow) ∉
      datasetFalse [⟨some 7, some 2⟩, ⟨some 1, some 1⟩]) :=
  ⟨(c7_binary_partition [⟨some 7, some 2⟩, ⟨some 1, some 1⟩] ⟨some 7, some 2⟩).2.2.1
      (by decide),
   (c7_binary_partition [⟨some 7, some 2⟩, ⟨some 1, some 1⟩] ⟨some 7, some 2⟩).2.2.2
      (by decide)⟩

/-- C9: in the summary table of `piechart` the rows before the last are
sorted by count in descending order, and the last row is the synthetic
"Others" row. -/
theorem c9_sorted_desc (df : List PieRow) (cats : ℤ) :
    (piechart df cats).dropLast.Sorted (fun a b => b.count ≤ a.count) ∧
    (piechart df cats).getLast? = some (othersRow df cats) ∧
    (othersRow df cats).label = "Others" := by
  refine ⟨?_, ?_, rfl⟩
  · rw [piechart, List.dropLast_concat]
    exact List.Pairwise.sublist (pySlice_sublist _ _) (pvtConc_sorted df)
  · rw [piechart, List.getLast?_concat]

theorem pvtConc_count_sum (df : List PieRow) :
    ((pvtConc df).map SRow.count).sum = (grandTotal df : ℤ) := by
  rw [pvtConc, List.map_map, grandTotal, Nat.cast_list_sum, List.map_map]
  rfl

theorem topCats_count_sum_le (df : List PieRow) (cats : ℤ) :
    ((topCats df cats).map SRow.count).sum ≤ (grandTotal df : ℤ) := by
  rw [← pvtConc_count_sum df]
  refine List.Sublist.sum_le_sum (List.Sublist.map SRow.count (pySlice_sublist _ _)) ?_
  intro a ha
  obtain ⟨row, hrow, rfl⟩ := List.mem_map.mp ha
  obtain ⟨p, _, rfl⟩ := List.mem_map.mp hrow
  exact Int.natCast_nonneg p.2

theorem topCats_all (df : List PieRow) (cats : ℤ)
    (h : ((distinctCats df).length : ℤ) ≤ cats) :
    topCats df cats = pvtConc df := by
  have hlen : (pvtConc df).length = (distinctCats df).length := by
    rw [pvtConc, List.length_map, pvt, List.length_insertionSort, List.length_map]
  rw [topCats, pySlice, if_neg (by omega)]
  exact List.take_of_length_le (by omega)

theorem grandTotal_cast (df : List PieRow) :
    ((pvt df).map (fun p => ((p.2 : ℚ)))).sum = (grandTotal df : ℚ) := by
  rw [grandTotal, Nat.cast_list_sum, List.map_map]
  rfl

/-- C3 (amended): the count `piechart`'s pivot table records for a present
category is `np.count_nonzero` over the group's identifier cells: it counts
the rows of the category whose identifier is *truthy* (a nonzero number, or
a missing value, which numpy treats as nonzero) — not the rows whose
identifier is non-missing. -/
theorem c3_count_is_count_nonzero (df : List PieRow) (c : String)
    (hc : ∃ r ∈ df, r.cat = some c) :
    (c, df.countP (fun r => r.cat == some c && truthy r.idv)) ∈ pvt df ∧
    ∀ p ∈ pvt df, p.2 = df.countP (fun r => r.cat == some p.1 && truthy r.idv) := by
  constructor
  · rw [mem_pvt]
    refine List.mem_map.mpr ⟨c, ?_, rfl⟩
    rw [distinctCats, List.mem_dedup, List.mem_filterMap]
    obtain ⟨r, hr, hcat⟩ := hc
    exact ⟨r, hr, hcat⟩
  · intro p hp
    rw [mem_pvt] at hp
    obtain ⟨c', _, rfl⟩ := List.mem_map.mp hp
    rfl

theorem c3_count_is_count_nonzero_witness :
    (∃ r ∈ ([⟨some "a", some 3⟩] : List PieRow), r.cat = some "a") ∧
    ("a", ([⟨some "a", some 3⟩] : List PieRow).countP
        (fun r => r.cat == some "a" && truthy r.idv)) ∈
      pvt [⟨some "a", some 3⟩] :=
  ⟨⟨⟨some "a", some 3⟩, List.Mem.head _, rfl⟩,
   (c3_count_is_count_nonzero [⟨some "a", some 3⟩] "a"
      ⟨⟨some "a", some 3⟩, List.Mem.head _, rfl⟩).1⟩

/-- C3 fails as stated: in a one-row dataset whose identifier cell is the
non-missing value `0`, the category has one row with a non-missing
identifier, but the pivot table records a count of `0` (`np.count_nonzero`
drops the zero identifier). -/
theorem c3_cex :
    pvt [⟨some "a", some 0⟩] = [("a", 0)] ∧
    ([⟨some "a", some 0⟩] : List PieRow).countP
      (fun r => r.cat == some "a" && r.idv.isSome) = 1 := by
  decide

/-- C1 (amended): whenever the grand total is positive (some row has a
truthy identifier cell), the Concentration cells of `piechart`'s summary
table are all actual numbers and add up to exactly `1` (hence to `1.0`
within any tolerance).  When the grand total is `0` the retained rows'
concentrations are `NaN` and the column has no numeric sum (see the
counterexample). -/
theorem c1_conc_sum_eq_one (df : List PieRow) (cats : ℤ)
    (h : 0 < grandTotal df) :
    strictSum ((piechart df cats).map SRow.conc) = some 1 := by
  have hsome : ∀ o ∈ (topCats df cats).map SRow.conc, o.isSome := by
    intro o ho
    obtain ⟨row, hrow, rfl⟩ := List.mem_map.mp ho
    have hm : row ∈ pvtConc df := (pySlice_sublist _ _).subset hrow
    obtain ⟨p, _, rfl⟩ := List.mem_map.mp hm
    simp [mkConc, Nat.pos_iff_ne_zero.mp h]
  have hall : ∀ o ∈ (piechart df cats).map SRow.conc, o.isSome := by
    rw [piechart, List.map_append]
    intro o ho
    rcases List.mem_append.mp ho with h1 | h2
    · exact hsome o h1
    · obtain ⟨row, hrow, rfl⟩ := List.mem_map.mp h2
      rw [List.mem_singleton] at hrow
      subst hrow
      rfl
  rw [strictSum_eq_skipnaSum _ hall, piechart, List.map_append, skipnaSum_append]
  have hone : skipnaSum ([othersRow df cats].map SRow.conc)
      = 1 - skipnaSum ((topCats df cats).map SRow.conc) := by
    simp [othersRow, skipnaSum_cons, skipnaSum]
  rw [hone]
  congr 1
  ring

theorem c1_conc_sum_eq_one_witness :
    0 < grandTotal [⟨some "a", some 1⟩, ⟨some "b", some 1⟩] ∧
    strictSum ((piechart [⟨some "a", some 1⟩, ⟨some "b", some 1⟩] 1).map
      SRow.conc) = some 1 :=
  ⟨by decide, c1_conc_sum_eq_one [⟨some "a", some 1⟩, ⟨some "b", some 1⟩] 1 (by decide)⟩

/-- C1 fails as stated: on the dataset with the single row
`(field = "a", identifier = 0)` and `cats = 1` the single retained row's
concentration is `0/0 = NaN`, so the Concentration column does not sum to
`1.0` within `1e-9` — it has no numeric sum at all. -/
theorem c1_cex : ¬ ∃ s : ℚ,
    strictSum ((piechart [⟨some "a", some 0⟩] 1).map SRow.conc) = some s ∧
    |s - 1| ≤ 1 / 1000000000 := by
  have h : strictSum ((piechart [⟨some "a", some 0⟩] 1).map SRow.conc)
      = none := by decide
  rintro ⟨s, hs, -⟩
  rw [h] at hs
  exact Option.noConfusion hs

/-- C2 (amended): the "Others" count is the grand total minus the sum of
the retained counts and is never negative, for every dataset and every
`cats`.  When `cats` is at least the number of distinct categories *and*
the grand total is positive, "Others" has count `0` and concentration `0`
(and `piechart` neither raises nor divides by zero: the model is total).
Without a positive grand total the concentration of "Others" is
`1.0 - 0.0 = 1.0` instead (see the counterexample). -/
theorem c2_others_count_conc (df : List PieRow) (cats : ℤ) :
    ((othersRow df cats).count
        = (grandTotal df : ℤ) - ((topCats df cats).map SRow.count).sum ∧
      0 ≤ (othersRow df cats).count) ∧
    (((distinctCats df).length : ℤ) ≤ cats → 0 < grandTotal df →
      (othersRow df cats).count = 0 ∧ (othersRow df cats).conc = some 0) := by
  refine ⟨⟨rfl, ?_⟩, fun hcats htot => ⟨?_, ?_⟩⟩
  · have := topCats_count_sum_le df cats
    show 0 ≤ (grandTotal df : ℤ) - ((topCats df cats).map SRow.count).sum
    omega
  · show (grandTotal df : ℤ) - ((topCats df cats).map SRow.count).sum = 0
    rw [topCats_all df cats hcats, pvtConc_count_sum]
    omega
  · show some (1 - skipnaSum ((topCats df cats).map SRow.conc)) = some 0
    have hne : grandTotal df ≠ 0 := Nat.pos_iff_ne_zero.mp htot
    have hconc : (topCats df cats).map SRow.conc
        = ((pvt df).map (fun p => (p.2 : ℚ) / (grandTotal df : ℚ))).map some := by
      rw [topCats_all df cats hcats, pvtConc, List.map_map, List.map_map]
      refine List.map_congr_left fun p _ => ?_
      simp [Function.comp, mkConc, hne]
    rw [hconc, skipnaSum_map_some]
    have hdiv : (pvt df).map (fun p => (p.2 : ℚ) / (grandTotal df : ℚ))
        = ((pvt df).map (fun p => ((p.2 : ℚ)))).map
            (fun q => q / (grandTotal df : ℚ)) := by
      rw [List.map_map]
      rfl
    rw [hdiv, sum_map_div, grandTotal_cast,
        div_self (Nat.cast_ne_zero.mpr hne)]
    norm_num

theorem c2_others_count_conc_witness :
    (((distinctCats [⟨some "a", some 5⟩]).length : ℤ) ≤ 3 ∧
      0 < grandTotal [⟨some "a", some 5⟩]) ∧
    (othersRow [⟨some "a", some 5⟩] 3).count = 0 ∧
    (othersRow [⟨some "a", some 5⟩] 3).conc = some 0 :=
  ⟨⟨by decide, by decide⟩,
   (c2_others_count_conc [⟨some "a", some 5⟩] 3).2 (by decide) (by decide)⟩

/-- C2 fails as stated: on the dataset with the single row
`(field = "a", identifier = 0)` with `cats = 1 ≥ 1` distinct category, the
"Others" row does get count `0`, but its concentration is
`1.0 - sum(NaN, skipna) = 1.0`, not `0`. -/
theorem c2_cex :
    ((distinctCats [⟨some "a", some 0⟩]).length : ℤ) ≤ 1 ∧
    (othersRow [⟨some "a", some 0⟩] 1).count = 0 ∧
    (othersRow [⟨some "a", some 0⟩] 1).conc = some 1 ∧
    (1 : ℚ) ≠ 0 := by
  refine ⟨by decide, by decide, ?_, by norm_num⟩
  show some (1 - skipnaSum ((topCats [⟨some "a", some 0⟩] 1).map SRow.conc))
      = some 1
  have h : (topCats [⟨some "a", some 0⟩] 1).map SRow.conc = [none] := by decide
  rw [h]
  norm_num [skipnaSum]

/-! ## Claims about `barchart_categorical` (CategoricalSplitSummary) -/

theorem skipnaSum_binary (df : List CatRow) (c : String)
    (hb : ∀ r ∈ df, r.b = some 0 ∨ r.b = some 1) :
    aggSum df c
      = (df.countP (fun r => r.cat == some c && r.b == some 1) : ℚ) := by
  induction df with
  | nil => rfl
  | cons r t ih =>
    have ht := ih (fun x hx => hb x (.tail _ hx))
    rw [aggSum] at ht ⊢
    by_cases hcat : (r.cat == some c)
    · rcases hb r (.head _) with h | h
      · simp [List.filter_cons, List.countP_cons, hcat, h, skipnaSum_cons, ht]
      · simp [List.filter_cons, List.countP_cons, hcat, h, skipnaSum_cons, ht]
        ring
    · simp [List.filter_cons, List.countP_cons, hcat, ht]

/-- C4: under the spec's data-model invariant that the binary field only
takes the values 0 and 1, every row of the `categories` table of
`barchart_categorical` carries: `count` = the number of dataset rows with
that category value, `sum` = the number of those rows whose binary cell is
`1`, and `mean` = `sum / count` exactly. -/
theorem c4_group_aggregates (df : List CatRow)
    (hb : ∀ r ∈ df, r.b = some 0 ∨ r.b = some 1) :
    ∀ e ∈ barchart_categorical df,
      e.count = df.countP (fun r => r.cat == some e.label) ∧
      e.sum = (df.countP (fun r => r.cat == some e.label && r.b == some 1) : ℚ) ∧
      e.mean = some (e.sum / (e.count : ℚ)) := by
  intro e he
  obtain ⟨c, hc, rfl⟩ := List.mem_map.mp he
  have hcount : aggCount df c = df.countP (fun r => r.cat == some c) := by
    refine List.countP_congr fun r hr => ?_
    rcases hb r hr with h | h <;> simp [h]
  have hpos : 0 < aggCount df c := by
    rw [distinctCatsC, List.mem_dedup, List.mem_filterMap] at hc
    obtain ⟨r, hr, hcat⟩ := hc
    refine List.countP_pos_iff.mpr ⟨r, hr, ?_⟩
    rcases hb r hr with h | h <;> simp [hcat, h]
  refine ⟨hcount, skipnaSum_binary df c hb, ?_⟩
  show aggMean df c = some (aggSum df c / (aggCount df c : ℚ))
  rw [aggMean, if_neg (Nat.pos_iff_ne_zero.mp hpos)]

theorem c4_group_aggregates_witness :
    (∀ r ∈ ([⟨some "x", some 1⟩, ⟨some "x", some 0⟩, ⟨some "y", some 1⟩] :
        List CatRow), r.b = some 0 ∨ r.b = some 1) ∧
    ∀ e ∈ barchart_categorical
        [⟨some "x", some 1⟩, ⟨some "x", some 0⟩, ⟨some "y", some 1⟩],
      e.count = ([⟨some "x", some 1⟩, ⟨some "x", some 0⟩, ⟨some "y", some 1⟩] :
          List CatRow).countP (fun r => r.cat == some e.label) ∧
      e.sum = (([⟨some "x", some 1⟩, ⟨some "x", some 0⟩, ⟨some "y", some 1⟩] :
          List CatRow).countP
            (fun r => r.cat == some e.label && r.b == some 1) : ℚ) ∧
      e.mean = some (e.sum / (e.count : ℚ)) :=
  ⟨by decide, c4_group_aggregates _ (by decide)⟩

/-! ## Claims about `barchart_continuous` (ContinuousSplitDistribution) -/

theorem npLinspace_length (n : ℕ) (a b : ℚ) : (npLinspace n a b).length = n := by
  rw [npLinspace, List.length_map, List.length_range]

theorem npLinspace_point_le (n : ℕ) (a b : ℚ) (h2 : 2 ≤ n) (hab : a ≤ b)
    (i j : ℕ) (hij : i ≤ j) :
    a + (i : ℚ) * (b - a) / ((n : ℚ) - 1) ≤ a + (j : ℚ) * (b - a) / ((n : ℚ) - 1) := by
  have hn : (0 : ℚ) < (n : ℚ) - 1 := by
    have : (2 : ℚ) ≤ (n : ℚ) := by exact_mod_cast h2
    linarith
  have hs : (0 : ℚ) ≤ (b - a) / ((n : ℚ) - 1) :=
    div_nonneg (by linarith) (le_of_lt hn)
  have hij' : (i : ℚ) ≤ (j : ℚ) := by exact_mod_cast hij
  calc a + (i : ℚ) * (b - a) / ((n : ℚ) - 1)
      = a + (i : ℚ) * ((b - a) / ((n : ℚ) - 1)) := by ring
    _ ≤ a + (j : ℚ) * ((b - a) / ((n : ℚ) - 1)) := by nlinarith
    _ = a + (j : ℚ) * (b - a) / ((n : ℚ) - 1) := by ring

theorem npLinspace_point_lt (n : ℕ) (a b : ℚ) (h2 : 2 ≤ n) (hab : a < b)
    (i j : ℕ) (hij : i < j) :
    a + (i : ℚ) * (b - a) / ((n : ℚ) - 1) < a + (j : ℚ) * (b - a) / ((n : ℚ) - 1) := by
  have hn : (0 : ℚ) < (n : ℚ) - 1 := by
    have : (2 : ℚ) ≤ (n : ℚ) := by exact_mod_cast h2
    linarith
  have hs : (0 : ℚ) < (b - a) / ((n : ℚ) - 1) :=
    div_pos (by linarith) hn
  have hij' : (i : ℚ) < (j : ℚ) := by exact_mod_cast hij
  have := mul_lt_mul_of_pos_right hij' hs
  calc a + (i : ℚ) * (b - a) / ((n : ℚ) - 1)
      = a + (i : ℚ) * ((b - a) / ((n : ℚ) - 1)) := by ring
    _ < a + (j : ℚ) * ((b - a) / ((n : ℚ) - 1)) := by linarith
    _ = a + (j : ℚ) * (b - a) / ((n : ℚ) - 1) := by ring

theorem npLinspace_first (n : ℕ) (a b : ℚ) (h1 : 1 ≤ n) :
    (npLinspace n a b).head? = some a := by
  obtain ⟨m, rfl⟩ : ∃ m, n = m + 1 := ⟨n - 1, by omega⟩
  rw [npLinspace, List.range_succ_eq_map]
  simp

theorem npLinspace_last (n : ℕ) (a b : ℚ) (h2 : 2 ≤ n) :
    (npLinspace n a b).getLast? = some b := by
  obtain ⟨m, rfl⟩ : ∃ m, n = m + 2 := ⟨n - 2, by omega⟩
  rw [npLinspace, List.range_succ, List.map_append]
  simp only [List.map_cons, List.map_nil, List.getLast?_concat]
  congr 1
  have hm : ((m : ℚ) + 1) ≠ 0 := by positivity
  push_cast
  have h1 : (m : ℚ) + 2 - 1 = (m : ℚ) + 1 := by ring
  rw [h1, mul_div_cancel_left₀ _ hm]
  ring

theorem npLinspace_pairwise_lt (n : ℕ) (a b : ℚ) (h2 : 2 ≤ n) (hab : a < b) :
    (npLinspace n a b).Pairwise (· < ·) := by
  rw [npLinspace]
  exact List.Pairwise.map _
    (fun i j hij => npLinspace_point_lt n a b h2 hab i j hij)
    (List.pairwise_lt_range n)

/-- C8: for every `n ≥ 2` and `min < max`, `np.linspace(min, max, n)`
computes exactly `n` strictly increasing, linearly spaced boundary points
(point `i` is `min + i·(max-min)/(n-1)`), the first being `min` and the
last exactly `max`, and the cut then has `n - 1` bucket categories. -/
theorem c8_boundaries (n : ℕ) (a b : ℚ) (h2 : 2 ≤ n) (hab : a < b) :
    (npLinspace n a b).length = n ∧
    (npLinspace n a b).Pairwise (· < ·) ∧
    (npLinspace n a b).head? = some a ∧
    (npLinspace n a b).getLast? = some b ∧
    (∀ i, i < n →
      (npLinspace n a b)[i]? = some (a + (i : ℚ) * (b - a) / ((n : ℚ) - 1))) ∧
    (∀ sub : List ContRow,
      (groupSizes (mkBins n (some a) (some b)) sub).length = n - 1) := by
  refine ⟨npLinspace_length n a b, npLinspace_pairwise_lt n a b h2 hab,
    npLinspace_first n a b (by omega), npLinspace_last n a b h2, ?_, ?_⟩
  · intro i hi
    rw [npLinspace, List.getElem?_map, List.getElem?_range hi]
    rfl
  · intro sub
    rw [groupSizes, List.length_map, List.length_range, mkBins,
        List.length_map, npLinspace_length]

theorem searchSorted_linspace (n : ℕ) (a b : ℚ) (v : ℚ) :
    searchSorted (mkBins n (some a) (some b)) v
      = (List.range n).countP
          (fun i : ℕ => decide (a + (i : ℚ) * (b - a) / ((n : ℚ) - 1) < v)) := by
  rw [mkBins, searchSorted, npLinspace, List.countP_map, List.countP_map]
  rfl

theorem mkBins_length (n : ℕ) (a b : ℚ) :
    (mkBins n (some a) (some b)).length = n := by
  rw [mkBins, List.length_map, npLinspace_length]

/-- C6 (amended): for `n ≥ 2` buckets over `min < max`, a value is assigned
to a bucket exactly when it lies in the half-open interval `(min, max]`.
In particular the endpoint `min` itself is *not* assigned (`pd.cut`
defaults: right-closed intervals, `include_lowest=False`); all values of
`(min, max]` are, and values outside `[min, max]` are excluded. -/
theorem c6_assignment_iff (n : ℕ) (a b : ℚ) (h2 : 2 ≤ n) (hab : a < b)
    (v : ℚ) :
    (assignBucket (mkBins n (some a) (some b)) v).isSome
      ↔ (a < v ∧ v ≤ b) := by
  have hf0 : a + ((0 : ℕ) : ℚ) * (b - a) / ((n : ℚ) - 1) = a := by
    push_cast
    ring
  have hflast : a + (((n - 1 : ℕ)) : ℚ) * (b - a) / ((n : ℚ) - 1) = b := by
    have hne : (n : ℚ) - 1 ≠ 0 := by
      have : (2 : ℚ) ≤ (n : ℚ) := by exact_mod_cast h2
      linarith
    rw [Nat.cast_sub (by omega), Nat.cast_one, mul_div_cancel_left₀ _ hne]
    ring
  have h0 : searchSorted (mkBins n (some a) (some b)) v = 0 ↔ v ≤ a := by
    rw [searchSorted_linspace, List.countP_eq_zero]
    constructor
    · intro h
      have := h 0 (List.mem_range.mpr (by omega))
      rw [hf0] at this
      simpa using this
    · intro hva i _
      have hle := npLinspace_point_le n a b h2 (le_of_lt hab) 0 i (Nat.zero_le i)
      rw [hf0] at hle
      simp only [decide_eq_true_eq]
      push_neg
      linarith
  have hn : searchSorted (mkBins n (some a) (some b)) v = n ↔ b < v := by
    rw [searchSorted_linspace]
    constructor
    · intro h
      have hall := List.countP_eq_length.mp (by rw [List.length_range]; exact h)
      have := hall (n - 1) (List.mem_range.mpr (by omega))
      rw [hflast] at this
      simpa using this
    · intro hbv
      have hall : ∀ i ∈ List.range n,
          (fun i : ℕ => decide (a + (i : ℚ) * (b - a) / ((n : ℚ) - 1) < v)) i
            = true := by
        intro i hi
        rw [List.mem_range] at hi
        have hle := npLinspace_point_le n a b h2 (le_of_lt hab) i (n - 1)
          (by omega)
        rw [hflast] at hle
        simp only [decide_eq_true_eq]
        linarith
      rw [List.countP_eq_length.mpr hall, List.length_range]
  rw [assignBucket]
  by_cases hc : searchSorted (mkBins n (some a) (some b)) v = 0 ∨
      searchSorted (mkBins n (some a) (some b)) v = (mkBins n (some a) (some b)).length
  · rw [if_pos hc]
    simp only [Option.isSome_none, Bool.false_eq_true, false_iff]
    rcases hc with hc | hc
    · have := h0.mp hc
      intro hcon
      linarith [hcon.1]
    · rw [mkBins_length] at hc
      have := hn.mp hc
      intro hcon
      linarith [hcon.2]
  · rw [if_neg hc]
    push_neg at hc
    rw [mkBins_length] at hc
    constructor
    · intro _
      have h1 : a < v := by
        have := (not_iff_not.mpr h0).mp hc.1
        push_neg at this
        exact this
      have h2' : v ≤ b := by
        have := (not_iff_not.mpr hn).mp hc.2
        push_neg at this
        exact this
      exact ⟨h1, h2'⟩
    · intro _
      rfl

theorem c6_assignment_iff_witness :
    ((2 ≤ 5 ∧ (0 : ℚ) < 100) ∧
      ((assignBucket (mkBins 5 (some 0) (some 100)) 30).isSome
        ↔ ((0 : ℚ) < 30 ∧ (30 : ℚ) ≤ 100))) :=
  ⟨⟨by norm_num, by norm_num⟩,
   c6_assignment_iff 5 0 100 (by norm_num) (by norm_num) 30⟩

/-- C6 fails as stated: with `min = 0`, `max = 100`, `n = 5`, the value `0`
lies in `[min, max]` (it is the endpoint `min` itself) yet `pd.cut` leaves
it unassigned. -/
theorem npLinspace_ex : npLinspace 5 0 100 = [0, 25, 50, 75, 100] := by
  simp only [npLinspace, show List.range 5 = [0, 1, 2, 3, 4] from rfl,
    List.map_cons, List.map_nil, List.cons.injEq, and_true]
  norm_num

theorem c6_cex :
    (0 : ℚ) ≤ 0 ∧ (0 : ℚ) ≤ 100 ∧
    assignBucket (mkBins 5 (some 0) (some 100)) 0 = none := by
  refine ⟨le_refl 0, by norm_num, ?_⟩
  have hb : mkBins 5 (some 0) (some 100)
      = [some 0, some 25, some 50, some 75, some 100] := by
    rw [mkBins, npLinspace_ex]
    rfl
  rw [assignBucket, hb]
  have hss : searchSorted
      [some 0, some 25, some 50, some 75, some 100] (0 : ℚ) = 0 := by
    simp only [searchSorted, List.countP_cons, List.countP_nil, fltLt]
    norm_num
  rw [hss]
  simp

theorem run_err_decreasing (df : List ContRow) (n : ℤ) (minp maxp : Option ℚ)
    (hn : ¬ n < 0)
    (h1 : binsDecreasing (mkBins n.toNat (defMin df minp) (defMax df maxp))
      = true) :
    barchart_continuous df n minp maxp
      = .error "bins must increase monotonically" := by
  rw [barchart_continuous, if_neg hn]
  simp only [h1, if_true]

theorem run_err_dup (df : List ContRow) (n : ℤ) (minp maxp : Option ℚ)
    (hn : ¬ n < 0)
    (h1 : binsDecreasing (mkBins n.toNat (defMin df minp) (defMax df maxp))
      = false)
    (h2 : binsDuplicated (mkBins n.toNat (defMin df minp) (defMax df maxp))
      = true) :
    barchart_continuous df n minp maxp = .error "bin edges must be unique" := by
  rw [barchart_continuous, if_neg hn]
  simp only [h1, h2, if_true, if_false, Bool.false_eq_true]

theorem run_err_interval (df : List ContRow) (n : ℤ) (minp maxp : Option ℚ)
    (hn : ¬ n < 0)
    (h1 : binsDecreasing (mkBins n.toNat (defMin df minp) (defMax df maxp))
      = false)
    (h2 : binsDuplicated (mkBins n.toNat (defMin df minp) (defMax df maxp))
      = false)
    (h3 : binsBadInterval (mkBins n.toNat (defMin df minp) (defMax df maxp))
      = true) :
    barchart_continuous df n minp maxp
      = .error "left side of interval must be <= right side" := by
  rw [barchart_continuous, if_neg hn]
  simp only [h1, h2, h3, if_true, if_false, Bool.false_eq_true]

theorem run_ok (df : List ContRow) (n : ℤ) (minp maxp : Option ℚ)
    (hn : ¬ n < 0)
    (h1 : binsDecreasing (mkBins n.toNat (defMin df minp) (defMax df maxp))
      = false)
    (h2 : binsDuplicated (mkBins n.toNat (defMin df minp) (defMax df maxp))
      = false)
    (h3 : binsBadInterval (mkBins n.toNat (defMin df minp) (defMax df maxp))
      = false) :
    barchart_continuous df n minp maxp
      = .ok (mkOut df (mkBins n.toNat (defMin df minp) (defMax df maxp))) := by
  rw [barchart_continuous, if_neg hn]
  simp only [h1, h2, h3, if_false, Bool.false_eq_true]

theorem mem_pairsOf (l : List α) (p : α × α) (hp : p ∈ pairsOf l) :
    p.1 ∈ l ∧ p.2 ∈ l := by
  match l with
  | [] => simp [pairsOf] at hp
  | [a] => simp [pairsOf] at hp
  | a :: b :: t =>
    rw [show pairsOf (a :: b :: t) = (a, b) :: pairsOf (b :: t) from rfl] at hp
    rcases List.mem_cons.mp hp with h | h
    · subst h
      exact ⟨List.mem_cons_self _ _, List.mem_cons_of_mem _ (List.mem_cons_self _ _)⟩
    · have := mem_pairsOf (b :: t) p h
      exact ⟨List.mem_cons_of_mem _ this.1, List.mem_cons_of_mem _ this.2⟩

theorem npLinspace_self (n : ℕ) (a : ℚ) :
    npLinspace n a a = List.replicate n a := by
  rw [npLinspace, List.eq_replicate_iff]
  refine ⟨by simp, ?_⟩
  intro q hq
  obtain ⟨i, _, rfl⟩ := List.mem_map.mp hq
  simp

theorem dedup_replicate (n : ℕ) (x : α) [DecidableEq α] (h : 1 ≤ n) :
    (List.replicate n x).dedup = [x] := by
  induction n with
  | zero => omega
  | succ m ih =>
    rw [List.replicate_succ]
    by_cases hm : m = 0
    · subst hm
      simp
    · rw [List.dedup_cons_of_mem (by simp [List.mem_replicate, hm])]
      exact ih (by omega)

theorem npLinspace_head₂ (m : ℕ) (a b : ℚ) :
    ∃ t : List ℚ, npLinspace (m + 2) a b
      = (a + ((0 : ℕ) : ℚ) * (b - a) / (((m + 2 : ℕ) : ℚ) - 1))
        :: (a + ((1 : ℕ) : ℚ) * (b - a) / (((m + 2 : ℕ) : ℚ) - 1)) :: t := by
  rw [npLinspace, List.range_succ_eq_map, List.range_succ_eq_map]
  exact ⟨_, rfl⟩

/-- C5 (amended): `barchart_continuous` raises (a library `ValueError`, the
model's `Except.error`) whenever `n < 0` (`np.linspace` rejects a negative
sample count), whenever `n ≥ 2` and the defaulted `min` exceeds the
defaulted `max` (decreasing bin edges), and whenever `n ≥ 3` and
`min = max` (duplicate bin edges).  For `n ∈ {0, 1}`, and for `min = max`
with `n = 2`, the function completes without error (see the
counterexample). -/
theorem c5_invalid_params (df : List ContRow) (n : ℤ) (minp maxp : Option ℚ)
    (a b : ℚ) (ha : defMin df minp = some a) (hb : defMax df maxp = some b)
    (h : n < 0 ∨ (2 ≤ n ∧ b < a) ∨ (3 ≤ n ∧ a = b)) :
    isErr (barchart_continuous df n minp maxp) = true := by
  rcases h with h | ⟨h2, hba⟩ | ⟨h3, hab⟩
  · rw [barchart_continuous, if_pos h]
    rfl
  · have hn : ¬ n < 0 := by omega
    obtain ⟨m, hm⟩ : ∃ m, n.toNat = m + 2 := ⟨n.toNat - 2, by omega⟩
    have hdec : binsDecreasing
        (mkBins n.toNat (defMin df minp) (defMax df maxp)) = true := by
      rw [ha, hb, hm, mkBins]
      obtain ⟨t, ht⟩ := npLinspace_head₂ m a b
      rw [ht, List.map_cons, List.map_cons, binsDecreasing]
      apply List.any_eq_true.mpr
      refine ⟨(some (a + ((0 : ℕ) : ℚ) * (b - a) / (((m + 2 : ℕ) : ℚ) - 1)),
               some (a + ((1 : ℕ) : ℚ) * (b - a) / (((m + 2 : ℕ) : ℚ) - 1))),
        List.mem_cons_self _ _, ?_⟩
      simp only [fltLt, decide_eq_true_eq]
      have hpos : (0 : ℚ) < ((m + 2 : ℕ) : ℚ) - 1 := by
        push_cast
        linarith
      have hneg : (b - a) / (((m + 2 : ℕ) : ℚ) - 1) < 0 :=
        div_neg_of_neg_of_pos (by linarith) hpos
      push_cast at hneg ⊢
      rw [one_mul, zero_mul, zero_div, add_zero]
      linarith
    rw [run_err_decreasing df n minp maxp hn hdec]
    rfl
  · subst hab
    have hn : ¬ n < 0 := by omega
    have hk : 3 ≤ n.toNat := by omega
    have hbins : mkBins n.toNat (defMin df minp) (defMax df maxp)
        = List.replicate n.toNat (some a) := by
      rw [ha, hb, mkBins, npLinspace_self, List.map_replicate]
    have hdec : binsDecreasing
        (mkBins n.toNat (defMin df minp) (defMax df maxp)) = false := by
      rw [hbins, binsDecreasing]
      apply List.any_eq_false.mpr
      intro p hp
      have hmem := mem_pairsOf _ p hp
      rw [List.eq_of_mem_replicate hmem.1, List.eq_of_mem_replicate hmem.2]
      simp [fltLt]
    have hdup : binsDuplicated
        (mkBins n.toNat (defMin df minp) (defMax df maxp)) = true := by
      rw [hbins, binsDuplicated, dedup_replicate _ _ (by omega),
          List.length_replicate]
      simp only [List.length_singleton, Bool.and_eq_true, decide_eq_true_eq,
        bne_iff_ne, ne_eq]
      constructor
      · omega
      · omega
    rw [run_err_dup df n minp maxp hn hdec hdup]
    rfl

theorem c5_invalid_params_witness :
    (defMin [] (some 5) = some 5 ∧ defMax [] (some 5) = some 5 ∧
      ((3 : ℤ) ≤ 4 ∧ (5 : ℚ) = 5)) ∧
    isErr (barchart_continuous [] 4 (some 5) (some 5)) = true :=
  ⟨⟨rfl, rfl, by norm_num, rfl⟩,
   c5_invalid_params [] 4 (some 5) (some 5) 5 5 rfl rfl
     (Or.inr (Or.inr ⟨by norm_num, rfl⟩))⟩

/-- C5 fails as stated: with `n = 1 < 2` (and a perfectly ordinary data
range) the function completes without raising — `np.linspace` returns the
single edge `[min]` and `pd.cut` accepts it, leaving every value
unassigned; and with `min = max` and `n = 2` the two equal edges pass every
check of `pd.cut` (the duplicate-edge check is skipped for exactly two
edges), so the function completes as well. -/
theorem c5_cex :
    ((1 : ℤ) < 2 ∧
      isErr (barchart_continuous [⟨some 0, some 1⟩, ⟨some 10, some 0⟩] 1
        (some 0) (some 10)) = false) ∧
    ((5 : ℚ) ≥ 5 ∧
      isErr (barchart_continuous [] 2 (some 5) (some 5)) = false) := by
  constructor
  · refine ⟨by norm_num, ?_⟩
    rw [run_ok [⟨some 0, some 1⟩, ⟨some 10, some 0⟩] 1 (some 0) (some 10)
      (by norm_num) rfl rfl rfl]
    rfl
  · refine ⟨le_refl 5, ?_⟩
    have hbins : mkBins (2 : ℤ).toNat (defMin [] (some 5)) (defMax [] (some 5))
        = [some 5, some 5] := by
      show mkBins 2 (some 5) (some 5) = [some 5, some 5]
      rw [mkBins, npLinspace_self]
      rfl
    have h1 : binsDecreasing (mkBins (2 : ℤ).toNat (defMin [] (some 5))
        (defMax [] (some 5))) = false := by
      rw [hbins, binsDecreasing]
      show (pairsOf [some (5:ℚ), some 5]).any (fun p => fltLt p.2 p.1) = false
      rw [show pairsOf [some (5:ℚ), some 5]
          = [(some (5:ℚ), some (5:ℚ))] from rfl]
      simp [fltLt]
    have h2 : binsDuplicated (mkBins (2 : ℤ).toNat (defMin [] (some 5))
        (defMax [] (some 5))) = false := by
      rw [hbins, binsDuplicated]
      simp
    have h3 : binsBadInterval (mkBins (2 : ℤ).toNat (defMin [] (some 5))
        (defMax [] (some 5))) = false := by
      rw [hbins, binsBadInterval]
      rw [show pairsOf [some (5:ℚ), some 5]
          = [(some (5:ℚ), some (5:ℚ))] from rfl]
      simp [fltLe]
    rw [run_ok [] 2 (some 5) (some 5) (by norm_num) h1 h2 h3]
    rfl

theorem sum_map_add (l : List β) (f g : β → ℕ) :
    (l.map (fun b => f b + g b)).sum = (l.map f).sum + (l.map g).sum := by
  induction l with
  | nil => rfl
  | cons a t ih =>
    simp only [List.map_cons, List.sum_cons, ih]
    omega

theorem sum_indicator (m j0 : ℕ) :
    ((List.range m).map (fun j => if j0 = j then 1 else 0)).sum
      = if j0 < m then 1 else 0 := by
  induction m with
  | zero => simp
  | succ k ih =>
    rw [List.range_succ, List.map_append, List.sum_append, ih]
    simp only [List.map_cons, List.map_nil, List.sum_cons, List.sum_nil]
    split_ifs <;> omega

theorem sum_countP_assign (l : List α) (g : α → Option ℕ) (m : ℕ)
    (hg : ∀ x j, g x = some j → j < m) :
    ((List.range m).map (fun j => l.countP (fun x => g x == some j))).sum
      = l.countP (fun x => (g x).isSome) := by
  induction l with
  | nil => simp
  | cons x t ih =>
    simp only [List.countP_cons]
    rw [sum_map_add, ih]
    congr 1
    cases hgx : g x with
    | none =>
      simp only [hgx, Option.isSome_none,
        show ∀ j : ℕ, ((none : Option ℕ) == some j) = false from fun _ => rfl]
      simp
    | some j0 =>
      have hj0 := hg x j0 hgx
      simp only [hgx, Option.isSome_some, if_true]
      rw [show (fun j : ℕ => if ((some j0 == some j : Bool)) then 1 else 0)
            = (fun j : ℕ => if j0 = j then 1 else 0) from funext fun j => by
              by_cases hj : j0 = j
              · subst hj
                simp
              · simp [hj]]
      rw [sum_indicator, if_pos hj0]

theorem cutCell_lt (bins : List (Option ℚ)) (xv : Option ℚ) (j : ℕ)
    (h : cutCell bins xv = some j) : j < bins.length - 1 := by
  cases xv with
  | none => exact absurd h (by simp [cutCell])
  | some v =>
    rw [cutCell, assignBucket] at h
    by_cases hc : searchSorted bins v = 0 ∨ searchSorted bins v = bins.length
    · rw [if_pos hc] at h
      exact absurd h (by simp)
    · rw [if_neg hc] at h
      push_neg at hc
      have hle : searchSorted bins v ≤ bins.length := List.countP_le_length _
      have hj := Option.some.inj h
      omega

theorem sizes_sum_eq_bucketedCount (bins : List (Option ℚ))
    (sub : List ContRow) :
    (groupSizes bins sub).sum = bucketedCount bins sub := by
  rw [groupSizes, bucketedCount]
  exact sum_countP_assign sub (fun r => cutCell bins r.x) (bins.length - 1)
    (fun r j h => cutCell_lt bins r.x j h)

theorem strictSum_groupFracs (bins : List (Option ℚ)) (sub : List ContRow)
    (h : bucketedCount bins sub ≠ 0) :
    strictSum (groupFracs bins sub) = some 1 := by
  rw [groupFracs]
  have hmap : (groupSizes bins sub).map
      (fun s : ℕ => if bucketedCount bins sub = 0 then none
                    else some ((s : ℚ) / (bucketedCount bins sub : ℚ)))
      = ((groupSizes bins sub).map
          (fun s : ℕ => ((s : ℚ) / (bucketedCount bins sub : ℚ)))).map some := by
    rw [List.map_map]
    exact List.map_congr_left fun s _ => by rw [if_neg h]; rfl
  rw [hmap, strictSum_eq_skipnaSum _ (by
    intro o ho
    obtain ⟨q, _, rfl⟩ := List.mem_map.mp ho
    rfl), skipnaSum_map_some]
  have hdiv : (groupSizes bins sub).map
      (fun s : ℕ => ((s : ℚ) / (bucketedCount bins sub : ℚ)))
      = ((groupSizes bins sub).map (fun s : ℕ => ((s : ℚ)))).map
          (fun q => q / (bucketedCount bins sub : ℚ)) := by
    rw [List.map_map]
    rfl
  rw [hdiv, sum_map_div, ← Nat.cast_list_sum, sizes_sum_eq_bucketedCount,
      div_self (Nat.cast_ne_zero.mpr h)]

/-- C10: whenever `barchart_continuous` succeeds, then for each of the two
binary-class subsets that has at least one row assigned to a bucket, that
subset's plotted per-bucket fractions sum to exactly `1`, because the
denominator is the subset's count of bucketed rows
(`subset[field].count()` after the cut), not its total row count — so
out-of-range rows do not unbalance either sum. -/
theorem c10_fraction_sum (df : List ContRow) (n : ℤ) (minp maxp : Option ℚ)
    (out : ContOut)
    (hok : barchart_continuous df n minp maxp = Except.ok out) :
    (1 ≤ out.cntTrue → strictSum out.fracTrue = some 1) ∧
    (1 ≤ out.cntFalse → strictSum out.fracFalse = some 1) := by
  by_cases hn : n < 0
  · rw [barchart_continuous, if_pos hn] at hok
    exact absurd hok (by simp)
  by_cases h1 : binsDecreasing (mkBins n.toNat (defMin df minp)
      (defMax df maxp)) = true
  · rw [run_err_decreasing df n minp maxp hn h1] at hok
    exact absurd hok (by simp)
  rw [Bool.not_eq_true] at h1
  by_cases h2 : binsDuplicated (mkBins n.toNat (defMin df minp)
      (defMax df maxp)) = true
  · rw [run_err_dup df n minp maxp hn h1 h2] at hok
    exact absurd hok (by simp)
  rw [Bool.not_eq_true] at h2
  by_cases h3 : binsBadInterval (mkBins n.toNat (defMin df minp)
      (defMax df maxp)) = true
  · rw [run_err_interval df n minp maxp hn h1 h2 h3] at hok
    exact absurd hok (by simp)
  rw [Bool.not_eq_true] at h3
  rw [run_ok df n minp maxp hn h1 h2 h3] at hok
  obtain rfl := Except.ok.inj hok
  constructor
  · intro hpos
    rw [show (mkOut df (mkBins n.toNat (defMin df minp)
          (defMax df maxp))).fracTrue
        = groupFracs (mkBins n.toNat (defMin df minp) (defMax df maxp))
            (datasetTrue df) from rfl]
    refine strictSum_groupFracs _ _ ?_
    have hcnt : (mkOut df (mkBins n.toNat (defMin df minp)
          (defMax df maxp))).cntTrue
        = bucketedCount (mkBins n.toNat (defMin df minp) (defMax df maxp))
            (datasetTrue df) := rfl
    rw [hcnt] at hpos
    omega
  · intro hpos
    rw [show (mkOut df (mkBins n.toNat (defMin df minp)
          (defMax df maxp))).fracFalse
        = groupFracs (mkBins n.toNat (defMin df minp) (defMax df maxp))
            (datasetFalse df) from rfl]
    refine strictSum_groupFracs _ _ ?_
    have hcnt : (mkOut df (mkBins n.toNat (defMin df minp)
          (defMax df maxp))).cntFalse
        = bucketedCount (mkBins n.toNat (defMin df minp) (defMax df maxp))
            (datasetFalse df) := rfl
    rw [hcnt] at hpos
    omega

/-- A concrete dataset for exercising `barchart_continuous`: two rows per
binary class, and in each class one value (200, 300) falls outside the
explicit range [0, 10]. -/
def dfC10 : List ContRow :=
  [⟨some 5, some 1⟩, ⟨some 200, some 1⟩, ⟨some 7, some 0⟩, ⟨some 300, some 0⟩]

theorem npLinspace_2_0_10 : npLinspace 2 0 10 = [0, 10] := by
  simp only [npLinspace, show List.range 2 = [0, 1] from rfl, List.map_cons,
    List.map_nil, List.cons.injEq, and_true]
  norm_num

theorem mkBins_c10 : mkBins (2 : ℤ).toNat (defMin dfC10 (some 0))
    (defMax dfC10 (some 10)) = [some 0, some 10] := by
  show mkBins 2 (some 0) (some 10) = [some 0, some 10]
  rw [mkBins, npLinspace_2_0_10]
  rfl

theorem c10_checks_pass :
    binsDecreasing (mkBins (2 : ℤ).toNat (defMin dfC10 (some 0))
      (defMax dfC10 (some 10))) = false ∧
    binsDuplicated (mkBins (2 : ℤ).toNat (defMin dfC10 (some 0))
      (defMax dfC10 (some 10))) = false ∧
    binsBadInterval (mkBins (2 : ℤ).toNat (defMin dfC10 (some 0))
      (defMax dfC10 (some 10))) = false := by
  rw [mkBins_c10]
  refine ⟨?_, ?_, ?_⟩
  · rw [binsDecreasing,
      show pairsOf [some (0 : ℚ), some 10]
        = [(some (0 : ℚ), some (10 : ℚ))] from rfl]
    simp only [List.any_cons, List.any_nil, fltLt, Bool.or_false]
    norm_num
  · rw [binsDuplicated]
    simp
  · rw [binsBadInterval,
      show pairsOf [some (0 : ℚ), some 10]
        = [(some (0 : ℚ), some (10 : ℚ))] from rfl]
    simp only [List.any_cons, List.any_nil, fltLe, Bool.or_false]
    norm_num

theorem c10_cnt_pos :
    1 ≤ (mkOut dfC10 (mkBins (2 : ℤ).toNat (defMin dfC10 (some 0))
      (defMax dfC10 (some 10)))).cntTrue := by
  show 1 ≤ bucketedCount (mkBins (2 : ℤ).toNat (defMin dfC10 (some 0))
    (defMax dfC10 (some 10))) (datasetTrue dfC10)
  rw [mkBins_c10]
  have hds : datasetTrue dfC10 = [⟨some 5, some 1⟩, ⟨some 200, some 1⟩] := by
    decide
  have hc1 : cutCell [some (0 : ℚ), some 10] (some 5) = some 0 := by
    rw [cutCell, assignBucket]
    have hss : searchSorted [some (0 : ℚ), some 10] 5 = 1 := by
      simp only [searchSorted, List.countP_cons, List.countP_nil, fltLt]
      norm_num
    rw [hss]
    simp
  rw [hds, bucketedCount, List.countP_cons, List.countP_cons, List.countP_nil]
  rw [show (⟨some 5, some 1⟩ : ContRow).x = some 5 from rfl]
  rw [hc1]
  simp

theorem c10_cntF_pos :
    1 ≤ (mkOut dfC10 (mkBins (2 : ℤ).toNat (defMin dfC10 (some 0))
      (defMax dfC10 (some 10)))).cntFalse := by
  show 1 ≤ bucketedCount (mkBins (2 : ℤ).toNat (defMin dfC10 (some 0))
    (defMax dfC10 (some 10))) (datasetFalse dfC10)
  rw [mkBins_c10]
  have hds : datasetFalse dfC10 = [⟨some 7, some 0⟩, ⟨some 300, some 0⟩] := by
    decide
  have hc1 : cutCell [some (0 : ℚ), some 10] (some 7) = some 0 := by
    rw [cutCell, assignBucket]
    have hss : searchSorted [some (0 : ℚ), some 10] 7 = 1 := by
      simp only [searchSorted, List.countP_cons, List.countP_nil, fltLt]
      norm_num
    rw [hss]
    simp
  rw [hds, bucketedCount, List.countP_cons, List.countP_cons, List.countP_nil]
  rw [show (⟨some 7, some 0⟩ : ContRow).x = some 7 from rfl]
  rw [hc1]
  simp

theorem c10_fraction_sum_witness :
    barchart_continuous dfC10 2 (some 0) (some 10)
      = Except.ok (mkOut dfC10 (mkBins (2 : ℤ).toNat (defMin dfC10 (some 0))
          (defMax dfC10 (some 10)))) ∧
    1 ≤ (mkOut dfC10 (mkBins (2 : ℤ).toNat (defMin dfC10 (some 0))
      (defMax dfC10 (some 10)))).cntTrue ∧
    1 ≤ (mkOut dfC10 (mkBins (2 : ℤ).toNat (defMin dfC10 (some 0))
      (defMax dfC10 (some 10)))).cntFalse ∧
    strictSum (mkOut dfC10 (mkBins (2 : ℤ).toNat (defMin dfC10 (some 0))
      (defMax dfC10 (some 10)))).fracTrue = some 1 ∧
    strictSum (mkOut dfC10 (mkBins (2 : ℤ).toNat (defMin dfC10 (some 0))
      (defMax dfC10 (some 10)))).fracFalse = some 1 := by
  have hrun := run_ok dfC10 2 (some 0) (some 10) (by norm_num)
    c10_checks_pass.1 c10_checks_pass.2.1 c10_checks_pass.2.2
  have hthm := c10_fraction_sum dfC10 2 (some 0) (some 10) _ hrun
  exact ⟨hrun, c10_cnt_pos, c10_cntF_pos,
    hthm.1 c10_cnt_pos, hthm.2 c10_cntF_pos⟩

theorem c8_boundaries_witness :
    (2 ≤ 5 ∧ (0 : ℚ) < 100) ∧
    npLinspace 5 0 100 = [0, 25, 50, 75, 100] ∧
    (npLinspace 5 0 100).length = 5 ∧
    (npLinspace 5 0 100).Pairwise (· < ·) ∧
    (npLinspace 5 0 100).head? = some 0 ∧
    (npLinspace 5 0 100).getLast? = some 100 ∧
    ∀ sub : List ContRow,
      (groupSizes (mkBins 5 (some 0) (some 100)) sub).length = 4 :=
  ⟨⟨by norm_num, by norm_num⟩, npLinspace_ex,
   (c8_boundaries 5 0 100 (by norm_num) (by norm_num)).1,
   (c8_boundaries 5 0 100 (by norm_num) (by norm_num)).2.1,
   (c8_boundaries 5 0 100 (by norm_num) (by norm_num)).2.2.1,
   (c8_boundaries 5 0 100 (by norm_num) (by norm_num)).2.2.2.1,
   fun sub => (c8_boundaries 5 0 100 (by norm_num) (by norm_num)).2.2.2.2.2 sub⟩
